import Mathlib

/-!
Verification of the document-portal sync and compile pipeline
(`app.py`, `app_remark.py`, `app1.py`).

The development shallowly embeds the Python source:

* the local filesystem is an association list of file paths to byte
  payloads plus a list of created directories (`FS`);
* the remote repository API is modelled by `Repo` and `RTree`: an
  `RTree.dirOk` node records the (deterministic) listing the remote host
  returns for that directory, `RTree.dirErr` records that the listing
  call raises, and `FileData` records the content attributes of a file
  entry (its declared encoding, its raw content field, and the result of
  accessing its decoded binary payload, which may raise);
* the external LaTeX compiler and the surrounding OS are modelled by
  `World`: the outcome of the process invocation and the file-existence
  oracle are inputs;
* bytes are lists of naturals, and Python `str.encode("utf-8")` is the
  standard UTF-8 encoder `encodeUtf8`.

Python library calls are embedded as follows: `shutil.rmtree` removes the
subtree rooted at the given path, `os.makedirs(..., exist_ok=True)` adds
the directory and all its ancestors, and writing a file replaces any
previous binding of that path.
-/

/-! ### Character-list string helpers (Python `os.path` and `str` operations) -/

/-- Byte payloads. -/
abbrev Bytes := List Nat

/-- Does the first character list occur as a leading segment of the second? -/
def listStarts : List Char → List Char → Bool
  | [], _ => true
  | _ :: _, [] => false
  | a :: as, b :: bs => a == b && listStarts as bs

/-- Does the first character list occur as a trailing segment of the second? -/
def listEnds (suf l : List Char) : Bool :=
  listStarts suf.reverse l.reverse

/-- Split a character list on the path separator, Python `str.split("/")`. -/
def splitSlash : List Char → List (List Char)
  | [] => [[]]
  | c :: cs =>
    if c = '/' then [] :: splitSlash cs
    else
      match splitSlash cs with
      | [] => [[c]]
      | s :: rest => (c :: s) :: rest

/-- Cumulative joins of a segment list: for segments `[a, b, c]` this is
`[a, a/b, a/b/c]`. -/
def cumPaths : List (List Char) → List (List Char)
  | [] => []
  | s :: rest => s :: (cumPaths rest).map (fun q => s ++ '/' :: q)

/-- All directories `os.makedirs(p, exist_ok=True)` creates: every nonempty
cumulative prefix of the segments of `p`. (`os.makedirs("")` would raise;
the sync code only calls it on nonempty paths.) -/
def ancestors (p : String) : List String :=
  (cumPaths (splitSlash p.data)).filterMap
    (fun q => if q = [] then none else some (String.mk q))

/-- Split a character list at its last occurrence of `sep`, returning the part
before and the part from the separator on; `none` when `sep` is absent. -/
def splitLast (sep : Char) : List Char → Option (List Char × List Char)
  | [] => none
  | c :: cs =>
    match splitLast sep cs with
    | some (b, a) => some (c :: b, a)
    | none => if c = sep then some ([], c :: cs) else none

/-- Drop trailing slashes. -/
def rstripSlash (cs : List Char) : List Char :=
  (cs.reverse.dropWhile (fun c => c = '/')).reverse

/-- Python `os.path.dirname`. -/
def dirname (s : String) : String :=
  match splitLast '/' s.data with
  | none => ""
  | some (b, _) =>
    if b.all (fun c => c = '/') then String.mk (b ++ ['/'])
    else String.mk (rstripSlash b)

/-- Python `os.path.basename`: the part after the last slash. -/
def basenameAux : List Char → List Char → List Char
  | [], acc => acc.reverse
  | c :: cs, acc => if c = '/' then basenameAux cs [] else basenameAux cs (c :: acc)

/-- Python `os.path.basename`. -/
def basename (s : String) : String :=
  String.mk (basenameAux s.data [])

/-- Python `os.path.splitext` on a basename: split at the last dot unless every
character before that dot is itself a dot. -/
def splitextBase (cs : List Char) : List Char × List Char :=
  match splitLast '.' cs with
  | none => (cs, [])
  | some (b, a) => if b.all (fun c => c = '.') then (cs, []) else (b, a)

/-- Python `os.path.join` for the relative, separator-free operands used in
this program. -/
def pathJoin (a b : String) : String :=
  a ++ "/" ++ b

/-- Python `str.lower`. -/
def toLowerStr (s : String) : String :=
  String.mk (s.data.map Char.toLower)

/-- Code-point lexicographic comparison, Python string `<=`. -/
def charsLe : List Char → List Char → Bool
  | [], _ => true
  | _ :: _, [] => false
  | a :: as, b :: bs =>
    if a.val < b.val then true
    else if b.val < a.val then false
    else charsLe as bs

/-- Python string `<=`. -/
def strLeB (a b : String) : Bool :=
  charsLe a.data b.data

/-- Insert into a sorted list, for `sortStr`. -/
def insertSorted (x : String) : List String → List String
  | [] => [x]
  | y :: ys => if strLeB x y then x :: y :: ys else y :: insertSorted x ys

/-- Python `sorted` on strings (insertion sort by code point). -/
def sortStr : List String → List String
  | [] => []
  | x :: xs => insertSorted x (sortStr xs)

/-- UTF-8 encoding of one character. -/
def utf8Char (c : Char) : List Nat :=
  let n := c.toNat
  if n < 0x80 then [n]
  else if n < 0x800 then [0xC0 + n / 64, 0x80 + n % 64]
  else if n < 0x10000 then [0xE0 + n / 4096, 0x80 + n / 64 % 64, 0x80 + n % 64]
  else [0xF0 + n / 262144, 0x80 + n / 4096 % 64, 0x80 + n / 64 % 64, 0x80 + n % 64]

/-- Python `str.encode("utf-8")`. -/
def encodeUtf8 (s : String) : Bytes :=
  s.data.foldr (fun c acc => utf8Char c ++ acc) []

/-- Predicate `strictUnderB r p`: path `p` lies strictly inside directory `r`
(that is, `r ++ "/"` is a leading segment of `p`). -/
def strictUnderB (r p : String) : Bool :=
  listStarts (r.data ++ ['/']) p.data

/-- Predicate `underEqB r p`: path `p` is the directory `r` itself or lies inside it;
the set of paths `shutil.rmtree r` removes. -/
def underEqB (r p : String) : Bool :=
  (p == r) || strictUnderB r p

/-! ### Local filesystem model -/

/-- The local filesystem: file paths with byte contents, plus the set of
created directories. -/
structure FS where
  files : List (String × Bytes)
  dirs : List String
deriving DecidableEq, Repr

/-- First-match association-list lookup. -/
def lookupA : List (String × Bytes) → String → Option Bytes
  | [], _ => none
  | kv :: rest, p => if kv.1 = p then some kv.2 else lookupA rest p

/-- Contents of the file at `p`, `none` when no such file exists. -/
def lookupFile (fs : FS) (p : String) : Option Bytes :=
  lookupA fs.files p

/-- Does the directory `d` exist? -/
def dirMem (fs : FS) (d : String) : Prop :=
  d ∈ fs.dirs

instance (fs : FS) (d : String) : Decidable (dirMem fs d) := by
  unfold dirMem; infer_instance

/-- Python `shutil.rmtree r` (guarded by `os.path.exists` in the source; removing a
missing subtree is a no-op here, so the guard is redundant in the model). -/
def fsWipe (fs : FS) (r : String) : FS :=
  { files := fs.files.filter (fun kv => !underEqB r kv.1),
    dirs := fs.dirs.filter (fun d => !underEqB r d) }

/-- Python `open(p, "wb").write(raw)`: replace any previous binding of `p`. -/
def fsWrite (fs : FS) (p : String) (raw : Bytes) : FS :=
  { fs with files := fs.files.filter (fun kv => !(kv.1 == p)) ++ [(p, raw)] }

/-- Python `os.makedirs(p, exist_ok=True)`. -/
def fsMakedirs (fs : FS) (p : String) : FS :=
  { fs with dirs := fs.dirs ++ ancestors p }

/-- Python `os.path.exists`. -/
def os_path_exists (fs : FS) (p : String) : Bool :=
  (lookupFile fs p).isSome || decide (dirMem fs p)

/-- Python `os.path.isdir`. -/
def os_path_isdir (fs : FS) (p : String) : Bool :=
  decide (dirMem fs p)

/-- The entry names `os.listdir p` would return: the first path segment of
every file or directory recorded strictly below `p`. -/
def childNames (fs : FS) (p : String) : List String :=
  ((fs.dirs ++ fs.files.map Prod.fst).filterMap
    (fun q =>
      if strictUnderB p q then
        match splitSlash (q.data.drop (p.data.length + 1)) with
        | [] => none
        | s :: _ => some (String.mk s)
      else none)).dedup

/-- Python `os.listdir`: raises `FileNotFoundError` on a missing path and
`NotADirectoryError` on a file path. -/
def os_listdir (fs : FS) (p : String) : Except String (List String) :=
  if dirMem fs p then .ok (childNames fs p)
  else if (lookupFile fs p).isSome then .error ("NotADirectoryError: " ++ p)
  else .error ("FileNotFoundError: " ++ p)

/-! ### Remote repository model -/

/-- The content attributes of a remote file entry (`app.py` lines 135-148):
the declared `encoding`, the raw `content` field, and the outcome of
accessing `decoded_content` (which base64-decodes `content` and may raise,
recorded as `Except.error`). -/
structure FileData where
  encoding : Option String
  content : Option String
  decodedContent : Except String Bytes

/-- The remote tree under one entry, recording the responses of the remote
listing API: `dirOk cs` is a directory whose `get_contents` call returns the
named children `cs`, and `dirErr e` is a directory whose `get_contents` call
raises (network or auth fault) with description `e`. -/
inductive RTree where
  | file (d : FileData)
  | dirOk (children : List (String × RTree))
  | dirErr (e : String)

mutual

/-- Size of a remote tree, for termination of the queue traversal. -/
def RTree.size : RTree → Nat
  | .file _ => 1
  | .dirErr _ => 1
  | .dirOk cs => 1 + RTree.sizeL cs

/-- Total size of a list of named remote trees. -/
def RTree.sizeL : List (String × RTree) → Nat
  | [] => 0
  | c :: cs => RTree.size c.2 + RTree.sizeL cs

end

theorem sizeL_append_aux (a b : List (String × RTree)) :
    RTree.sizeL (a ++ b) = RTree.sizeL a + RTree.sizeL b := by
  induction a with
  | nil => simp [RTree.sizeL]
  | cons c cs ih => simp [RTree.sizeL, ih]; omega

theorem sizeL_map_aux (f : String → String) (cs : List (String × RTree)) :
    RTree.sizeL (cs.map (fun c => (f c.1, c.2))) = RTree.sizeL cs := by
  induction cs with
  | nil => rfl
  | cons c cs ih => simp [RTree.sizeL, ih]

/-- The remote repository handle (`app.py` lines 104-106 and 118-124):
`connectErr` is the fault raised while authenticating or resolving the
repository (before any folder is processed), if any; `getContents r` is the
response of `repo.get_contents(r, ref=...)` for a top-level mapped folder. -/
structure Repo where
  connectErr : Option String
  getContents : String → Except String (List (String × RTree))

/-- The folder mapping (`BASE_DIRS` in `app.py`). -/
def BASE_DIRS : List (String × String) :=
  [("Topics", "topics"), ("Year", "year")]

/-! ### The sync engine (`pull_from_github`, `app.py` lines 98-162) -/

/-- The robust content decoding block (`app.py` lines 135-153): base64
entries use the decoded binary payload; "none"/absent encodings encode the
raw content field (empty string when absent) to UTF-8 bytes; anything else
falls back to the decoded binary payload. -/
def decodeEntry (d : FileData) : Except String Bytes :=
  if d.encoding = some "base64" then d.decodedContent
  else if d.encoding = some "none" ∨ d.encoding = none then
    .ok (encodeUtf8 (d.content.getD ""))
  else d.decodedContent

/-- The mutable state of one `pull_from_github` call: the local filesystem,
the console log (`print` output), and the `total_files` counter. -/
structure SyncAcc where
  fs : FS
  log : List String
  count : Nat
deriving DecidableEq

/-- Result of the per-folder loop: normal completion, or an exception
propagating to the outer handler with the state at the raise. -/
inductive PullRes where
  | ok (acc : SyncAcc)
  | err (acc : SyncAcc) (e : String)
deriving DecidableEq

/-- The queue-based traversal (`while contents:` loop, `app.py` lines
127-158): pop the head; a directory extends the queue with its children
(a raising listing call aborts the whole pull); a file first has its parent
directories created, then is decoded — a decode fault is logged and the entry
skipped — and on success its bytes are written and the counter bumped. -/
def processQueue (acc : SyncAcc) : List (String × RTree) → PullRes
  | [] => .ok acc
  | (p, .file d) :: rest =>
    let fs1 := fsMakedirs acc.fs (dirname p)
    match decodeEntry d with
    | .error e =>
      processQueue
        { acc with
          fs := fs1
          log := acc.log ++ ["⚠️ Error downloading " ++ p ++ ": " ++ e] } rest
    | .ok raw =>
      processQueue
        { acc with
          fs := fsWrite fs1 p raw
          count := acc.count + 1 } rest
  | (p, .dirOk cs) :: rest =>
    processQueue acc (rest ++ cs.map (fun c => (p ++ "/" ++ c.1, c.2)))
  | (_, .dirErr e) :: _ => .err acc e
termination_by q => RTree.sizeL q
decreasing_by
  all_goals simp only [RTree.sizeL, RTree.size, sizeL_append_aux, sizeL_map_aux]
  all_goals omega

/-- One iteration of the folder loop (`app.py` lines 111-124): wipe and
recreate the mapped root, then request its remote listing — a raising
listing call for the root itself is only a logged warning — and traverse. -/
def pullFolder (repo : Repo) (acc : SyncAcc) (folderName : String) : PullRes :=
  let fs1 := fsMakedirs (fsWipe acc.fs folderName) folderName
  match repo.getContents folderName with
  | .error e =>
    .ok
      { acc with
        fs := fs1
        log := acc.log ++ ["Warning: " ++ folderName ++ " not found. " ++ e] }
  | .ok cs =>
    processQueue { acc with fs := fs1 }
      (cs.map (fun c => (folderName ++ "/" ++ c.1, c.2)))

/-- The folder loop over `BASE_DIRS`. -/
def pullFolders (repo : Repo) (acc : SyncAcc) : List (String × String) → PullRes
  | [] => .ok acc
  | (_, folderName) :: rest =>
    match pullFolder repo acc folderName with
    | .ok acc2 => pullFolders repo acc2 rest
    | .err acc2 e => .err acc2 e

/-- The sync pass `pull_from_github` (`app.py` lines 98-162). Returns the `(success,
message)` pair of the source together with the resulting filesystem and
console log. A connect fault or a traversal fault lands in the outer
`except` and yields `(False, str(e))`. -/
def pull_from_github (repo : Repo) (fs : FS) : (Bool × String) × FS × List String :=
  match repo.connectErr with
  | some e => ((false, e), fs, [])
  | none =>
    match pullFolders repo { fs := fs, log := [], count := 0 } BASE_DIRS with
    | .ok acc =>
      ((true, "Sync complete! Processed " ++ toString acc.count ++ " files."),
        acc.fs, acc.log)
    | .err acc e => ((false, e), acc.fs, acc.log)

/-! ### The LaTeX compiler adapter (`compile_latex`, `app.py` lines 184-206) -/

/-- The outcome of `subprocess.run(..., stdout=PIPE, stderr=PIPE, text=True)`:
the exit status and the two separately captured streams. -/
structure ProcResult where
  returncode : Int
  stdout : String
  stderr : String
deriving DecidableEq

/-- The ambient OS for one `compile_latex` call: the outcome of the external
process invocation (`Except.error` models an invocation-level fault such as
the compiler binary missing), the file-existence oracle, and the value of
`os.path.abspath(TEMP_DIR)`. -/
structure World where
  run : List String → Except String ProcResult
  pathExists : String → Bool
  absTempDir : String

/-- The argument vector `compile_latex` passes to `subprocess.run`. -/
def compileArgv (w : World) (file_path : String) : List String :=
  ["pdflatex", "-interaction=nonstopmode",
    "-output-directory=" ++ w.absTempDir,
    "-jobname=" ++ (splitextBase (basename file_path).data).1.asString,
    file_path]

/-- The adapter `compile_latex` (`app.py` lines 184-206): run the compiler; succeed with
the derived PDF path exactly when the process exits zero and the PDF exists
there; otherwise fail with the captured standard output as the log; on an
invocation fault fail with the fault description as the log. -/
def compile_latex (w : World) (file_path : String) : Option String × Option String :=
  let file_name := basename file_path
  let job_name := (splitextBase file_name.data).1.asString
  match w.run (compileArgv w file_path) with
  | .error e => (none, some e)
  | .ok process =>
    let pdf_path := pathJoin w.absTempDir (job_name ++ ".pdf")
    if process.returncode = 0 ∧ w.pathExists pdf_path = true then (some pdf_path, none)
    else (none, some process.stdout)

/-- The PDF path `compile_latex` derives: `<absTempDir>/<jobname>.pdf` with
the job name the base name of the source stripped of its extension. -/
def derivedPdf (w : World) (file_path : String) : String :=
  pathJoin w.absTempDir ((splitextBase (basename file_path).data).1.asString ++ ".pdf")

/-! ### The secret resolver (`get_secret`, `app.py` lines 10-22) -/

/-- The resolver `get_secret` (`app.py` lines 10-22): `env` is the process environment as
a partial map; `secrets` is the local secret store, whose access may raise
(`Except.error`, e.g. a missing or unparsable secrets file) — that fault is
swallowed. -/
def get_secret (env : String → Option String)
    (secrets : Except String (String → Option String)) (key : String) : Option String :=
  match env key with
  | some v => some v
  | none =>
    match secrets with
    | .ok s =>
      match s key with
      | some v => some v
      | none => none
    | .error _ => none

/-! ### The local tree inspector (`get_subfolders` / `get_files`, `app.py` lines 173-182) -/

/-- The allowed extensions of `get_files`. -/
def allowed_extensions : List String :=
  [".tex", ".pdf", ".jpg", ".jpeg", ".png"]

/-- Python `f.lower().endswith(allowed_extensions)`. -/
def allowedFileB (f : String) : Bool :=
  allowed_extensions.any (fun ext => listEnds ext.data (toLowerStr f).data)

/-- The inspector `get_subfolders` (`app.py` lines 173-176): empty when the root is absent,
otherwise the sorted immediate subdirectories. The listing itself can still
raise (root existing as a plain file), hence the `Except` result type. -/
def get_subfolders (fs : FS) (root_dir : String) : Except String (List String) :=
  if os_path_exists fs root_dir then
    match os_listdir fs root_dir with
    | .error e => .error e
    | .ok entries =>
      .ok (sortStr (entries.filter (fun d => os_path_isdir fs (pathJoin root_dir d))))
  else .ok []

/-- The inspector `get_files` (`app.py` lines 178-182): lists allowed-extension files of
`root_dir/subfolder` with no existence guard, so a missing directory makes
the listing raise. -/
def get_files (fs : FS) (root_dir subfolder : String) : Except String (List String) :=
  match os_listdir fs (pathJoin root_dir subfolder) with
  | .error e => .error e
  | .ok entries => .ok (sortStr (entries.filter (fun f => allowedFileB f)))

/-! ### The operation trace of a pull pass

A `pull_from_github` call performs a sequence of filesystem and log
operations that is fully determined by the remote repository (the local
state is only threaded through them). `qTrace` / `folderTrace` /
`foldersTrace` compute that sequence, and `processQueue_eq_trace` /
`pull_eq_trace` prove the source functions equal to replaying it. -/

/-- One primitive effect of the sync engine. -/
inductive SyncOp where
  | wipe (r : String)
  | mkd (p : String)
  | write (p : String) (raw : Bytes)
  | logE (m : String)
deriving DecidableEq

/-- Replay one operation on the sync state. -/
def applyOp (acc : SyncAcc) : SyncOp → SyncAcc
  | .wipe r => { acc with fs := fsWipe acc.fs r }
  | .mkd p => { acc with fs := fsMakedirs acc.fs p }
  | .write p raw =>
    { acc with
      fs := fsWrite acc.fs p raw
      count := acc.count + 1 }
  | .logE m => { acc with log := acc.log ++ [m] }

/-- Replay a list of operations. -/
def applyOps (acc : SyncAcc) (ops : List SyncOp) : SyncAcc :=
  ops.foldl applyOp acc

/-- Replay a trace: the operation list plus the propagating exception, if
any. -/
def applyTrace (acc : SyncAcc) (t : List SyncOp × Option String) : PullRes :=
  match t.2 with
  | none => .ok (applyOps acc t.1)
  | some e => .err (applyOps acc t.1) e

/-- The operation trace of the queue traversal. -/
def qTrace : List (String × RTree) → List SyncOp × Option String
  | [] => ([], none)
  | (p, .file d) :: rest =>
    let pre : List SyncOp :=
      SyncOp.mkd (dirname p) ::
        (match decodeEntry d with
         | .error e => [SyncOp.logE ("⚠️ Error downloading " ++ p ++ ": " ++ e)]
         | .ok raw => [SyncOp.write p raw])
    (pre ++ (qTrace rest).1, (qTrace rest).2)
  | (p, .dirOk cs) :: rest =>
    qTrace (rest ++ cs.map (fun c => (p ++ "/" ++ c.1, c.2)))
  | (_, .dirErr e) :: _ => ([], some e)
termination_by q => RTree.sizeL q
decreasing_by
  all_goals simp only [RTree.sizeL, RTree.size, sizeL_append_aux, sizeL_map_aux]
  all_goals omega

/-- The operation trace of one folder iteration. -/
def folderTrace (repo : Repo) (folderName : String) : List SyncOp × Option String :=
  match repo.getContents folderName with
  | .error e =>
    ([SyncOp.wipe folderName, SyncOp.mkd folderName,
      SyncOp.logE ("Warning: " ++ folderName ++ " not found. " ++ e)], none)
  | .ok cs =>
    let t := qTrace (cs.map (fun c => (folderName ++ "/" ++ c.1, c.2)))
    (SyncOp.wipe folderName :: SyncOp.mkd folderName :: t.1, t.2)

/-- The operation trace of the whole folder loop. -/
def foldersTrace (repo : Repo) : List (String × String) → List SyncOp × Option String
  | [] => ([], none)
  | (_, folderName) :: rest =>
    match folderTrace repo folderName with
    | (ops, some e) => (ops, some e)
    | (ops, none) =>
      let t := foldersTrace repo rest
      (ops ++ t.1, t.2)

theorem applyOps_nil (acc : SyncAcc) : applyOps acc [] = acc := rfl

theorem applyOps_cons (acc : SyncAcc) (op : SyncOp) (ops : List SyncOp) :
    applyOps acc (op :: ops) = applyOps (applyOp acc op) ops := rfl

theorem applyOps_append (acc : SyncAcc) (a b : List SyncOp) :
    applyOps acc (a ++ b) = applyOps (applyOps acc a) b :=
  List.foldl_append _ _ _ _

theorem applyTrace_cons (acc : SyncAcc) (op : SyncOp) (ops : List SyncOp)
    (st : Option String) :
    applyTrace acc (op :: ops, st) = applyTrace (applyOp acc op) (ops, st) := by
  cases st <;> rfl

/-- The queue traversal of the source equals replaying its trace. -/
theorem processQueue_eq_trace : ∀ q acc, processQueue acc q = applyTrace acc (qTrace q)
  | [], acc => by simp [processQueue, qTrace, applyTrace, applyOps]
  | (p, .file d) :: rest, acc => by
    rw [processQueue, qTrace]
    cases hd : decodeEntry d with
    | error e =>
      simp only [hd, applyTrace_cons]
      rw [processQueue_eq_trace rest]
      rfl
    | ok raw =>
      simp only [hd, applyTrace_cons]
      rw [processQueue_eq_trace rest]
      rfl
  | (p, .dirOk cs) :: rest, acc => by
    rw [processQueue, qTrace]
    exact processQueue_eq_trace (rest ++ cs.map (fun c => (p ++ "/" ++ c.1, c.2))) acc
  | (_, .dirErr e) :: rest, acc => by
    rw [processQueue, qTrace]
    rfl
termination_by q _ => RTree.sizeL q
decreasing_by
  all_goals simp only [RTree.sizeL, RTree.size, sizeL_append_aux, sizeL_map_aux]
  all_goals omega

/-- One folder iteration equals replaying its trace. -/
theorem pullFolder_eq_trace (repo : Repo) (acc : SyncAcc) (folderName : String) :
    pullFolder repo acc folderName = applyTrace acc (folderTrace repo folderName) := by
  rw [pullFolder, folderTrace]
  cases hg : repo.getContents folderName with
  | error e => rfl
  | ok cs =>
    simp only [applyTrace_cons]
    rw [processQueue_eq_trace]
    rfl

/-- The folder loop equals replaying its trace. -/
theorem pullFolders_eq_trace (repo : Repo) :
    ∀ (dirs : List (String × String)) (acc : SyncAcc),
      pullFolders repo acc dirs = applyTrace acc (foldersTrace repo dirs) := by
  intro dirs
  induction dirs with
  | nil => intro acc; rfl
  | cons hd rest ih =>
    intro acc
    obtain ⟨label, folderName⟩ := hd
    rw [pullFolders, foldersTrace, pullFolder_eq_trace]
    cases hft : folderTrace repo folderName with
    | mk ops st =>
      cases st with
      | none =>
        simp only [applyTrace]
        rw [ih]
        cases hrest : foldersTrace repo rest with
        | mk ops2 st2 =>
          simp only [applyTrace, applyOps_append]
      | some e => rfl

/-- The function `pull_from_github` equals replaying the repo-determined trace from the
initial state. -/
theorem pull_eq_trace (repo : Repo) (fs : FS) :
    pull_from_github repo fs =
      match repo.connectErr with
      | some e => ((false, e), fs, [])
      | none =>
        match foldersTrace repo BASE_DIRS with
        | (ops, none) =>
          ((true, "Sync complete! Processed " ++
              toString (applyOps ⟨fs, [], 0⟩ ops).count ++ " files."),
            (applyOps ⟨fs, [], 0⟩ ops).fs, (applyOps ⟨fs, [], 0⟩ ops).log)
        | (ops, some e) =>
          ((false, e), (applyOps ⟨fs, [], 0⟩ ops).fs, (applyOps ⟨fs, [], 0⟩ ops).log) := by
  rw [pull_from_github]
  cases repo.connectErr with
  | some e => rfl
  | none =>
    rw [pullFolders_eq_trace]
    cases hft : foldersTrace repo BASE_DIRS with
    | mk ops st =>
      cases st with
      | none => rfl
      | some e => rfl

/-! ### Replaying a trace: last-writer characterization -/

/-- Effect of one operation on the file at `p`: `some v` when the operation
overwrites the binding (to `v`), `none` when it leaves it alone. -/
def opFileQ (p : String) : SyncOp → Option (Option Bytes)
  | .wipe r => if underEqB r p then some none else none
  | .write q raw => if q = p then some (some raw) else none
  | _ => none

/-- The last effect of an operation list on the file at `p`. -/
def opsFile : List SyncOp → String → Option (Option Bytes)
  | [], _ => none
  | op :: ops, p =>
    match opsFile ops p with
    | some v => some v
    | none => opFileQ p op

/-- Effect of one operation on membership of directory `d`. -/
def opDirQ (d : String) : SyncOp → Option Bool
  | .wipe r => if underEqB r d then some false else none
  | .mkd p => if d ∈ ancestors p then some true else none
  | _ => none

/-- The last effect of an operation list on membership of directory `d`. -/
def opsDir : List SyncOp → String → Option Bool
  | [], _ => none
  | op :: ops, d =>
    match opsDir ops d with
    | some v => some v
    | none => opDirQ d op

/-- The paths written by an operation list, in order, with multiplicity. -/
def opsWritePaths : List SyncOp → List String :=
  List.filterMap (fun op =>
    match op with
    | .write p _ => some p
    | _ => none)

/-- The log messages emitted by an operation list, in order. -/
def opsLogs : List SyncOp → List String :=
  List.filterMap (fun op =>
    match op with
    | .logE m => some m
    | _ => none)

/-- The number of file writes an operation list performs. -/
def countWrites (ops : List SyncOp) : Nat :=
  (opsWritePaths ops).length

theorem lookupA_filter (l : List (String × Bytes)) (f : String → Bool) (p : String) :
    lookupA (l.filter (fun kv => f kv.1)) p =
      if f p then lookupA l p else none := by
  induction l with
  | nil => cases h : f p <;> simp [lookupA, h]
  | cons kv rest ih =>
    by_cases hk : kv.1 = p
    · subst hk
      cases h : f kv.1 <;> simp [List.filter_cons, h, lookupA, ih]
    · cases h : f kv.1 <;>
        cases h2 : f p <;>
          simp [List.filter_cons, h, lookupA, hk, ih, h2]

theorem lookupA_append (a b : List (String × Bytes)) (p : String) :
    lookupA (a ++ b) p =
      match lookupA a p with
      | some v => some v
      | none => lookupA b p := by
  induction a with
  | nil => simp [lookupA]
  | cons kv rest ih =>
    by_cases hk : kv.1 = p <;> simp [lookupA, hk, ih]

theorem lookupFile_applyOp (acc : SyncAcc) (op : SyncOp) (p : String) :
    lookupFile (applyOp acc op).fs p =
      match opFileQ p op with
      | some v => v
      | none => lookupFile acc.fs p := by
  cases op with
  | wipe r =>
    simp only [applyOp, opFileQ, lookupFile, fsWipe]
    rw [lookupA_filter acc.fs.files (fun x => !underEqB r x) p]
    cases h : underEqB r p <;> simp [h]
  | mkd q => rfl
  | write q raw =>
    simp only [applyOp, opFileQ, lookupFile, fsWrite]
    rw [lookupA_append, lookupA_filter acc.fs.files (fun x => !(x == q)) p]
    by_cases hq : q = p
    · subst hq
      simp [lookupA]
    · have hpq : (p == q) = false := by
        simp only [beq_eq_false_iff_ne, ne_eq]
        exact fun h => hq h.symm
      simp only [hpq, Bool.not_false, if_pos rfl]
      have : lookupA [(q, raw)] p = none := by simp [lookupA, hq]
      rw [this]
      cases lookupA acc.fs.files p <;> simp [hq]
  | logE m => rfl

theorem lookupFile_applyOps (ops : List SyncOp) :
    ∀ (acc : SyncAcc) (p : String),
      lookupFile (applyOps acc ops).fs p =
        match opsFile ops p with
        | some v => v
        | none => lookupFile acc.fs p := by
  induction ops with
  | nil => intro acc p; rfl
  | cons op ops ih =>
    intro acc p
    rw [applyOps_cons, ih, opsFile]
    cases h : opsFile ops p with
    | some v => rfl
    | none => simp [lookupFile_applyOp]

theorem dirMem_applyOp (acc : SyncAcc) (op : SyncOp) (d : String) :
    dirMem (applyOp acc op).fs d ↔
      (match opDirQ d op with
       | some b => b = true
       | none => dirMem acc.fs d) := by
  cases op with
  | wipe r =>
    simp only [applyOp, opDirQ, dirMem, fsWipe]
    cases h : underEqB r d <;> simp [List.mem_filter, h]
  | mkd q =>
    simp only [applyOp, opDirQ, dirMem, fsMakedirs]
    by_cases h : d ∈ ancestors q <;> simp [List.mem_append, h]
  | write q raw => simp [applyOp, opDirQ, dirMem, fsWrite]
  | logE m => simp [applyOp, opDirQ, dirMem]

theorem dirMem_applyOps (ops : List SyncOp) :
    ∀ (acc : SyncAcc) (d : String),
      dirMem (applyOps acc ops).fs d ↔
        (match opsDir ops d with
         | some b => b = true
         | none => dirMem acc.fs d) := by
  induction ops with
  | nil => intro acc d; rfl
  | cons op ops ih =>
    intro acc d
    rw [applyOps_cons, ih, opsDir]
    cases h : opsDir ops d with
    | some v => rfl
    | none => simp [dirMem_applyOp]

theorem count_applyOps (ops : List SyncOp) :
    ∀ acc : SyncAcc, (applyOps acc ops).count = acc.count + countWrites ops := by
  induction ops with
  | nil => intro acc; simp [applyOps, countWrites, opsWritePaths]
  | cons op ops ih =>
    intro acc
    rw [applyOps_cons, ih]
    cases op <;>
      simp [applyOp, countWrites, opsWritePaths, List.filterMap_cons] <;> omega

theorem log_applyOps (ops : List SyncOp) :
    ∀ acc : SyncAcc, (applyOps acc ops).log = acc.log ++ opsLogs ops := by
  induction ops with
  | nil => intro acc; simp [applyOps, opsLogs]
  | cons op ops ih =>
    intro acc
    rw [applyOps_cons, ih]
    cases op <;> simp [applyOp, opsLogs, List.filterMap_cons]

theorem opsFile_append (a b : List SyncOp) (p : String) :
    opsFile (a ++ b) p =
      match opsFile b p with
      | some v => some v
      | none => opsFile a p := by
  induction a with
  | nil => cases h : opsFile b p <;> simp [opsFile, h]
  | cons op ops ih =>
    cases h : opsFile b p with
    | none => cases h2 : opsFile ops p <;> simp [opsFile, ih, h, h2]
    | some v => simp [opsFile, ih, h]

theorem opsWritePaths_append (a b : List SyncOp) :
    opsWritePaths (a ++ b) = opsWritePaths a ++ opsWritePaths b := by
  simp [opsWritePaths]

theorem opsLogs_append (a b : List SyncOp) :
    opsLogs (a ++ b) = opsLogs a ++ opsLogs b := by
  simp [opsLogs]

theorem countWrites_append (a b : List SyncOp) :
    countWrites (a ++ b) = countWrites a + countWrites b := by
  simp [countWrites, opsWritePaths_append]

/-! ### Path prefix lemmas -/

theorem listStarts_iff (a : List Char) :
    ∀ b, listStarts a b = true ↔ ∃ t, a ++ t = b := by
  induction a with
  | nil =>
    intro b
    simp [listStarts]
  | cons c cs ih =>
    intro b
    cases b with
    | nil =>
      simp only [listStarts, Bool.false_eq_true, false_iff]
      rintro ⟨t, ht⟩
      exact absurd ht (by simp)
    | cons d ds =>
      simp only [listStarts, Bool.and_eq_true, beq_iff_eq, ih]
      constructor
      · rintro ⟨hcd, t, ht⟩
        exact ⟨t, by rw [List.cons_append, hcd, ht]⟩
      · rintro ⟨t, ht⟩
        rw [List.cons_append] at ht
        injection ht with h1 h2
        exact ⟨h1, t, h2⟩

theorem strictUnderB_iff (r p : String) :
    strictUnderB r p = true ↔ ∃ t, r.data ++ '/' :: t = p.data := by
  rw [strictUnderB, listStarts_iff]
  constructor
  · rintro ⟨t, ht⟩
    exact ⟨t, by simpa using ht⟩
  · rintro ⟨t, ht⟩
    exact ⟨t, by simpa using ht⟩

theorem strictUnderB_append (r p s : String) (h : strictUnderB r p = true) :
    strictUnderB r (p ++ s) = true := by
  rw [strictUnderB_iff] at h ⊢
  obtain ⟨t, ht⟩ := h
  refine ⟨t ++ s.data, ?_⟩
  rw [String.data_append, ← ht]
  simp

theorem strictUnderB_join (r n : String) :
    strictUnderB r (r ++ "/" ++ n) = true := by
  rw [strictUnderB_iff]
  refine ⟨n.data, ?_⟩
  simp [String.data_append]

theorem underEqB_of_strict {r p : String} (h : strictUnderB r p = true) :
    underEqB r p = true := by
  simp [underEqB, h]

theorem strict_topics_not_year (p : String) (h : strictUnderB "topics" p = true) :
    underEqB "year" p = false := by
  rw [strictUnderB_iff] at h
  obtain ⟨t, ht⟩ := h
  have hd : p.data = 't' :: 'o' :: 'p' :: 'i' :: 'c' :: 's' :: '/' :: t := by
    rw [← ht]; rfl
  rw [underEqB]
  have h1 : (p == "year") = false := by
    simp only [beq_eq_false_iff_ne, ne_eq]
    intro he
    rw [he] at hd
    simp at hd
  have h2 : strictUnderB "year" p = false := by
    rw [strictUnderB, hd]
    rfl
  rw [h1, h2]
  rfl

theorem strict_year_not_topics (p : String) (h : strictUnderB "year" p = true) :
    underEqB "topics" p = false := by
  rw [strictUnderB_iff] at h
  obtain ⟨t, ht⟩ := h
  have hd : p.data = 'y' :: 'e' :: 'a' :: 'r' :: '/' :: t := by
    rw [← ht]; rfl
  rw [underEqB]
  have h1 : (p == "topics") = false := by
    simp only [beq_eq_false_iff_ne, ne_eq]
    intro he
    rw [he] at hd
    simp at hd
  have h2 : strictUnderB "topics" p = false := by
    rw [strictUnderB, hd]
    rfl
  rw [h1, h2]
  rfl

/-! ### Enumerating the remote files of a traversal -/

/-- All remote file entries the queue traversal visits, in traversal order
(cut short at a raising directory listing, like the traversal itself). -/
def qFilesBFS : List (String × RTree) → List (String × FileData)
  | [] => []
  | (p, .file d) :: rest => (p, d) :: qFilesBFS rest
  | (p, .dirOk cs) :: rest => qFilesBFS (rest ++ cs.map (fun c => (p ++ "/" ++ c.1, c.2)))
  | (_, .dirErr _) :: _ => []
termination_by q => RTree.sizeL q
decreasing_by
  all_goals simp only [RTree.sizeL, RTree.size, sizeL_append_aux, sizeL_map_aux]
  all_goals omega

mutual

/-- The remote file entries reachable under an entry at path `p`, by
recursion on the remote tree. -/
def RTree.dfsFiles : String → RTree → List (String × FileData)
  | p, .file d => [(p, d)]
  | _, .dirErr _ => []
  | p, .dirOk cs => RTree.dfsFilesL p cs

/-- The remote file entries reachable under the named children of a
directory at path `p`. -/
def RTree.dfsFilesL : String → List (String × RTree) → List (String × FileData)
  | _, [] => []
  | p, c :: cs => RTree.dfsFiles (p ++ "/" ++ c.1) c.2 ++ RTree.dfsFilesL p cs

end

/-- The remote file entries reachable under the entries of a queue. -/
def dfsFilesQ : List (String × RTree) → List (String × FileData)
  | [] => []
  | (p, t) :: rest => RTree.dfsFiles p t ++ dfsFilesQ rest

theorem dfsFilesQ_append (a b : List (String × RTree)) :
    dfsFilesQ (a ++ b) = dfsFilesQ a ++ dfsFilesQ b := by
  induction a with
  | nil => rfl
  | cons e rest ih =>
    obtain ⟨p, t⟩ := e
    simp [dfsFilesQ, ih]

theorem dfsFilesQ_children (p : String) (cs : List (String × RTree)) :
    dfsFilesQ (cs.map (fun c => (p ++ "/" ++ c.1, c.2))) = RTree.dfsFilesL p cs := by
  induction cs with
  | nil => rfl
  | cons c cs ih => simp [dfsFilesQ, RTree.dfsFilesL, ih]

/-- The path of a file entry whose decode succeeds; `none` on a decode
fault. -/
def okPathOf (pd : String × FileData) : Option String :=
  match decodeEntry pd.2 with
  | .ok _ => some pd.1
  | .error _ => none

/-- The console message of a file entry whose decode faults; `none` on a
successful decode. -/
def errMsgOf (pd : String × FileData) : Option String :=
  match decodeEntry pd.2 with
  | .error e => some ("⚠️ Error downloading " ++ pd.1 ++ ": " ++ e)
  | .ok _ => none

/-- The writes a queue trace performs are the ok-decoding visited entries. -/
theorem qTrace_writes : ∀ q : List (String × RTree),
    opsWritePaths (qTrace q).1 = (qFilesBFS q).filterMap okPathOf
  | [] => by simp [qTrace, qFilesBFS, opsWritePaths]
  | (p, .file d) :: rest => by
    rw [qTrace, qFilesBFS]
    cases hd : decodeEntry d with
    | error e =>
      simp [opsWritePaths, List.filterMap_cons, okPathOf, hd]
      exact qTrace_writes rest
    | ok raw =>
      simp [opsWritePaths, List.filterMap_cons, okPathOf, hd]
      exact qTrace_writes rest
  | (p, .dirOk cs) :: rest => by
    rw [qTrace, qFilesBFS]
    exact qTrace_writes (rest ++ cs.map (fun c => (p ++ "/" ++ c.1, c.2)))
  | (_, .dirErr e) :: rest => by
    simp [qTrace, qFilesBFS, opsWritePaths]
termination_by q => RTree.sizeL q
decreasing_by
  all_goals simp only [RTree.sizeL, RTree.size, sizeL_append_aux, sizeL_map_aux]
  all_goals omega

/-- The log messages a queue trace emits are those of the faulting visited
entries. -/
theorem qTrace_logs : ∀ q : List (String × RTree),
    opsLogs (qTrace q).1 = (qFilesBFS q).filterMap errMsgOf
  | [] => by simp [qTrace, qFilesBFS, opsLogs]
  | (p, .file d) :: rest => by
    rw [qTrace, qFilesBFS]
    cases hd : decodeEntry d with
    | error e =>
      simp [opsLogs, List.filterMap_cons, errMsgOf, hd]
      exact qTrace_logs rest
    | ok raw =>
      simp [opsLogs, List.filterMap_cons, errMsgOf, hd]
      exact qTrace_logs rest
  | (p, .dirOk cs) :: rest => by
    rw [qTrace, qFilesBFS]
    exact qTrace_logs (rest ++ cs.map (fun c => (p ++ "/" ++ c.1, c.2)))
  | (_, .dirErr e) :: rest => by
    simp [qTrace, qFilesBFS, opsLogs]
termination_by q => RTree.sizeL q
decreasing_by
  all_goals simp only [RTree.sizeL, RTree.size, sizeL_append_aux, sizeL_map_aux]
  all_goals omega

/-- When no directory listing on the queue faults, the traversal visits
exactly the reachable file entries (in a different order). -/
theorem qFilesBFS_perm : ∀ q : List (String × RTree), (qTrace q).2 = none →
    List.Perm (qFilesBFS q) (dfsFilesQ q)
  | [], _ => by simp [qFilesBFS, dfsFilesQ]
  | (p, .file d) :: rest, h => by
    have h2 : (qTrace rest).2 = none := by
      rw [qTrace] at h
      exact h
    rw [qFilesBFS, dfsFilesQ, RTree.dfsFiles]
    exact List.Perm.cons _ (qFilesBFS_perm rest h2)
  | (p, .dirOk cs) :: rest, h => by
    have h2 : (qTrace (rest ++ cs.map (fun c => (p ++ "/" ++ c.1, c.2)))).2 = none := by
      rw [qTrace] at h
      exact h
    rw [qFilesBFS, dfsFilesQ, RTree.dfsFiles]
    have := qFilesBFS_perm (rest ++ cs.map (fun c => (p ++ "/" ++ c.1, c.2))) h2
    rw [dfsFilesQ_append, dfsFilesQ_children] at this
    exact this.trans (List.perm_append_comm)
  | (_, .dirErr e) :: rest, h => by
    rw [qTrace] at h
    simp at h
termination_by q => RTree.sizeL q
decreasing_by
  all_goals simp only [RTree.sizeL, RTree.size, sizeL_append_aux, sizeL_map_aux]
  all_goals omega

/-- The queue trace performs no wipes. -/
theorem qTrace_no_wipe : ∀ q : List (String × RTree),
    ∀ op ∈ (qTrace q).1, ∀ r, op ≠ SyncOp.wipe r
  | [] => by simp [qTrace]
  | (p, .file d) :: rest => by
    rw [qTrace]
    cases hd : decodeEntry d with
    | error e =>
      simp only [hd, List.mem_append, List.mem_cons, List.mem_singleton]
      rintro op ((rfl | rfl | h0) | hmem) r
      · simp
      · simp
      · simp at h0
      · exact qTrace_no_wipe rest op hmem r
    | ok raw =>
      simp only [hd, List.mem_append, List.mem_cons, List.mem_singleton]
      rintro op ((rfl | rfl | h0) | hmem) r
      · simp
      · simp
      · simp at h0
      · exact qTrace_no_wipe rest op hmem r
  | (p, .dirOk cs) :: rest => by
    rw [qTrace]
    exact qTrace_no_wipe (rest ++ cs.map (fun c => (p ++ "/" ++ c.1, c.2)))
  | (_, .dirErr e) :: rest => by
    simp [qTrace]
termination_by q => RTree.sizeL q
decreasing_by
  all_goals simp only [RTree.sizeL, RTree.size, sizeL_append_aux, sizeL_map_aux]
  all_goals omega

/-! ### Spec-side view of one mapped root

`rootFilesSpec` follows the wording of the specification: the remote file
entries reachable under a mapped root (via the recursive `RTree.dfsFiles`
enumeration), from which `rootReachableOk` takes the paths of the entries
whose decode succeeds and `rootFaulted` the log messages of those whose
decode faults. These are the refinement targets the sync engine is compared
against. -/

/-- The initial traversal queue of a root whose listing returned `cs`. -/
def initQueue (r : String) (cs : List (String × RTree)) : List (String × RTree) :=
  cs.map (fun c => (r ++ "/" ++ c.1, c.2))

/-- The remote file entries reachable under root `r` (empty when the root
listing itself faults). -/
def rootFilesSpec (repo : Repo) (r : String) : List (String × FileData) :=
  match repo.getContents r with
  | .error _ => []
  | .ok cs => dfsFilesQ (initQueue r cs)

/-- The remote file paths reachable under root `r` whose decode step
succeeds. -/
def rootReachableOk (repo : Repo) (r : String) : List String :=
  (rootFilesSpec repo r).filterMap okPathOf

/-- The console messages of the reachable entries under root `r` whose
decode step faults. -/
def rootFaulted (repo : Repo) (r : String) : List String :=
  (rootFilesSpec repo r).filterMap errMsgOf

/-- Every reachable file path of a queue lies strictly under `r` when every
queue entry does. -/
theorem dfsFilesQ_under (r : String) : ∀ q : List (String × RTree),
    (∀ e ∈ q, strictUnderB r e.1 = true) →
    ∀ pd ∈ dfsFilesQ q, strictUnderB r pd.1 = true
  | [], _ => by simp [dfsFilesQ]
  | (p, .file d) :: rest, hq => by
    intro pd hpd
    rw [dfsFilesQ, RTree.dfsFiles] at hpd
    rcases List.mem_append.1 hpd with h1 | h2
    · rcases List.mem_singleton.1 h1 with rfl
      exact hq (p, .file d) (by simp)
    · exact dfsFilesQ_under r rest (fun e he => hq e (by simp [he])) pd h2
  | (p, .dirOk cs) :: rest, hq => by
    intro pd hpd
    rw [dfsFilesQ, RTree.dfsFiles, ← dfsFilesQ_children] at hpd
    rcases List.mem_append.1 hpd with h1 | h2
    · refine dfsFilesQ_under r (cs.map (fun c => (p ++ "/" ++ c.1, c.2))) ?_ pd h1
      intro e he
      rcases List.mem_map.1 he with ⟨c, _, rfl⟩
      have hp : strictUnderB r p = true := hq (p, .dirOk cs) (by simp)
      exact strictUnderB_append r (p ++ "/") c.1 (strictUnderB_append r p "/" hp)
    · exact dfsFilesQ_under r rest (fun e he => hq e (by simp [he])) pd h2
  | (p, .dirErr e) :: rest, hq => by
    intro pd hpd
    rw [dfsFilesQ, RTree.dfsFiles] at hpd
    rcases List.mem_append.1 hpd with h1 | h2
    · simp at h1
    · exact dfsFilesQ_under r rest (fun e2 he => hq e2 (by simp [he])) pd h2
termination_by q => RTree.sizeL q
decreasing_by
  all_goals simp only [RTree.sizeL, RTree.size, sizeL_append_aux, sizeL_map_aux]
  all_goals omega

/-- Every path of `rootReachableOk repo r` lies strictly under `r`. -/
theorem rootReachableOk_under (repo : Repo) (r : String) :
    ∀ p ∈ rootReachableOk repo r, strictUnderB r p = true := by
  intro p hp
  rw [rootReachableOk, rootFilesSpec] at hp
  cases hg : repo.getContents r with
  | error e => rw [hg] at hp; simp at hp
  | ok cs =>
    rw [hg] at hp
    rcases List.mem_filterMap.1 hp with ⟨pd, hpd, hok⟩
    have hunder : strictUnderB r pd.1 = true := by
      refine dfsFilesQ_under r (initQueue r cs) ?_ pd hpd
      intro e he
      rcases List.mem_map.1 he with ⟨c, _, rfl⟩
      exact strictUnderB_join r c.1
    have : p = pd.1 := by
      rw [okPathOf] at hok
      cases hd : decodeEntry pd.2 with
      | ok raw => rw [hd] at hok; injection hok with h; exact h.symm
      | error e => rw [hd] at hok; exact absurd hok (by simp)
    rw [this]
    exact hunder

/-! ### Confinement of a folder trace to its root -/

/-- An operation touches only the subtree of `r`: wipes are of `r` itself
and writes land strictly under `r`. -/
def opConfined (r : String) : SyncOp → Prop
  | .wipe r2 => r2 = r
  | .write q _ => strictUnderB r q = true
  | _ => True

theorem qTrace_confined (r : String) : ∀ q : List (String × RTree),
    (∀ e ∈ q, strictUnderB r e.1 = true) →
    ∀ op ∈ (qTrace q).1, opConfined r op
  | [], _ => by simp [qTrace]
  | (p, .file d) :: rest, hq => by
    rw [qTrace]
    cases hd : decodeEntry d with
    | error e =>
      simp only [hd, List.mem_append, List.mem_cons, List.mem_singleton]
      rintro op ((rfl | rfl | h0) | hmem)
      · trivial
      · trivial
      · simp at h0
      · exact qTrace_confined r rest (fun e2 he => hq e2 (by simp [he])) op hmem
    | ok raw =>
      simp only [hd, List.mem_append, List.mem_cons, List.mem_singleton]
      rintro op ((rfl | rfl | h0) | hmem)
      · trivial
      · exact hq (p, .file d) (by simp)
      · simp at h0
      · exact qTrace_confined r rest (fun e2 he => hq e2 (by simp [he])) op hmem
  | (p, .dirOk cs) :: rest, hq => by
    rw [qTrace]
    refine qTrace_confined r (rest ++ cs.map (fun c => (p ++ "/" ++ c.1, c.2))) ?_
    intro e he
    rcases List.mem_append.1 he with h1 | h2
    · exact hq e (by simp [h1])
    · rcases List.mem_map.1 h2 with ⟨c, _, rfl⟩
      have hp : strictUnderB r p = true := hq (p, .dirOk cs) (by simp)
      exact strictUnderB_append r (p ++ "/") c.1 (strictUnderB_append r p "/" hp)
  | (p, .dirErr e) :: rest, hq => by
    simp [qTrace]
termination_by q => RTree.sizeL q
decreasing_by
  all_goals simp only [RTree.sizeL, RTree.size, sizeL_append_aux, sizeL_map_aux]
  all_goals omega

theorem folderTrace_confined (repo : Repo) (r : String) :
    ∀ op ∈ (folderTrace repo r).1, opConfined r op := by
  rw [folderTrace]
  cases hg : repo.getContents r with
  | error e =>
    intro op hop
    rcases List.mem_cons.1 hop with rfl | hop2
    · rfl
    · rcases List.mem_cons.1 hop2 with rfl | hop3
      · trivial
      · rcases List.mem_singleton.1 hop3 with rfl
        trivial
  | ok cs =>
    intro op hop
    rcases List.mem_cons.1 hop with rfl | hop2
    · rfl
    · rcases List.mem_cons.1 hop2 with rfl | hop3
      · trivial
      · refine qTrace_confined r _ ?_ op hop3
        intro e he
        rcases List.mem_map.1 he with ⟨c, _, rfl⟩
        exact strictUnderB_join r c.1

/-- Confined operations leave paths outside the root alone. -/
theorem opsFile_confined_none (r p : String) (hp : underEqB r p = false) :
    ∀ ops : List SyncOp, (∀ op ∈ ops, opConfined r op) → opsFile ops p = none := by
  intro ops
  induction ops with
  | nil => intro _; rfl
  | cons op ops ih =>
    intro hc
    rw [opsFile, ih (fun o ho => hc o (by simp [ho]))]
    have hop : opConfined r op := hc op (by simp)
    cases op with
    | wipe r2 =>
      have : r2 = r := hop
      subst this
      simp [opFileQ, hp]
    | mkd q => rfl
    | write q raw =>
      have hq : strictUnderB r q = true := hop
      have : q ≠ p := by
        intro he
        subst he
        rw [underEqB_of_strict hq] at hp
        exact absurd hp (by simp)
      simp [opFileQ, this]
    | logE m => rfl

/-- On a wipe-free operation list, the last effect on `p` is `some (some _)`
exactly when `p` is written, and never `some none`. -/
theorem opsFile_no_wipe (p : String) :
    ∀ ops : List SyncOp, (∀ op ∈ ops, ∀ r, op ≠ SyncOp.wipe r) →
      (opsFile ops p = none ∧ p ∉ opsWritePaths ops) ∨
        (∃ raw, opsFile ops p = some (some raw) ∧ p ∈ opsWritePaths ops) := by
  intro ops
  induction ops with
  | nil => intro _; exact Or.inl ⟨rfl, by simp [opsWritePaths]⟩
  | cons op ops ih =>
    intro hw
    rcases ih (fun o ho r => hw o (by simp [ho]) r) with ⟨h1, h2⟩ | ⟨raw, h1, h2⟩
    · rw [opsFile, h1]
      cases op with
      | wipe r => exact absurd rfl (hw (SyncOp.wipe r) (by simp) r)
      | mkd q =>
        exact Or.inl ⟨rfl, by simpa [opsWritePaths, List.filterMap_cons] using h2⟩
      | write q raw =>
        by_cases hq : q = p
        · subst hq
          exact Or.inr ⟨raw, by simp [opFileQ], by simp [opsWritePaths, List.filterMap_cons]⟩
        · refine Or.inl ⟨by simp [opFileQ, hq], ?_⟩
          simp only [opsWritePaths, List.filterMap_cons, List.mem_cons]
          rintro (rfl | hmem)
          · exact hq rfl
          · exact h2 hmem
      | logE m =>
        exact Or.inl ⟨rfl, by simpa [opsWritePaths, List.filterMap_cons] using h2⟩
    · refine Or.inr ⟨raw, by rw [opsFile, h1], ?_⟩
      cases op <;> simp [opsWritePaths, List.filterMap_cons] <;> simp [opsWritePaths] at h2 <;> simp [h2]

/-! ### Characterizing one folder trace -/

theorem folderTrace_file_at (repo : Repo) (r : String)
    (hst : (folderTrace repo r).2 = none) (p : String)
    (hp : strictUnderB r p = true) :
    ∃ v, opsFile (folderTrace repo r).1 p = some v ∧
      (v.isSome = true ↔ p ∈ rootReachableOk repo r) := by
  have hunder : underEqB r p = true := underEqB_of_strict hp
  cases hg : repo.getContents r with
  | error e =>
    refine ⟨none, ?_, ?_⟩
    · simp [folderTrace, hg, opsFile, opFileQ, hunder]
    · simp [rootReachableOk, rootFilesSpec, hg]
  | ok cs =>
    have hqst : (qTrace (initQueue r cs)).2 = none := by
      rw [folderTrace, hg] at hst
      exact hst
    have hops : (folderTrace repo r).1 =
        SyncOp.wipe r :: SyncOp.mkd r :: (qTrace (initQueue r cs)).1 := by
      rw [folderTrace, hg]
      rfl
    have hperm := (qFilesBFS_perm (initQueue r cs) hqst).filterMap okPathOf
    have hmemiff : ∀ x, x ∈ opsWritePaths (qTrace (initQueue r cs)).1 ↔
        x ∈ rootReachableOk repo r := by
      intro x
      rw [qTrace_writes, rootReachableOk, rootFilesSpec, hg]
      exact hperm.mem_iff
    have hnw : ∀ op ∈ SyncOp.mkd r :: (qTrace (initQueue r cs)).1,
        ∀ r2, op ≠ SyncOp.wipe r2 := by
      intro op hop r2
      rcases List.mem_cons.1 hop with rfl | hmem
      · simp
      · exact qTrace_no_wipe (initQueue r cs) op hmem r2
    rw [hops]
    rcases opsFile_no_wipe p (SyncOp.mkd r :: (qTrace (initQueue r cs)).1) hnw with
      ⟨h1, h2⟩ | ⟨raw, h1, h2⟩
    · refine ⟨none, ?_, ?_⟩
      · rw [opsFile, h1]
        simp [opFileQ, hunder]
      · simp only [Option.isSome_none, Bool.false_eq_true, false_iff]
        intro hmem
        refine h2 ?_
        have : p ∈ opsWritePaths (qTrace (initQueue r cs)).1 := (hmemiff p).2 hmem
        simpa [opsWritePaths, List.filterMap_cons] using this
    · refine ⟨some raw, ?_, ?_⟩
      · rw [opsFile, h1]
      · simp only [Option.isSome_some, true_iff]
        refine (hmemiff p).1 ?_
        simpa [opsWritePaths, List.filterMap_cons] using h2

theorem folderTrace_count (repo : Repo) (r : String)
    (hst : (folderTrace repo r).2 = none) :
    countWrites (folderTrace repo r).1 = (rootReachableOk repo r).length := by
  cases hg : repo.getContents r with
  | error e =>
    simp [folderTrace, hg, countWrites, opsWritePaths, rootReachableOk, rootFilesSpec,
      List.filterMap_cons]
  | ok cs =>
    have hqst : (qTrace (initQueue r cs)).2 = none := by
      rw [folderTrace, hg] at hst
      exact hst
    have hperm := (qFilesBFS_perm (initQueue r cs) hqst).filterMap okPathOf
    have : countWrites (folderTrace repo r).1 =
        countWrites (qTrace (initQueue r cs)).1 := by
      rw [folderTrace, hg]
      simp only [countWrites, opsWritePaths]
      rfl
    rw [this, countWrites, qTrace_writes, rootReachableOk, rootFilesSpec, hg]
    exact hperm.length_eq

theorem folderTrace_faulted_logged (repo : Repo) (r : String)
    (hst : (folderTrace repo r).2 = none) :
    ∀ m ∈ rootFaulted repo r, m ∈ opsLogs (folderTrace repo r).1 := by
  intro m hm
  cases hg : repo.getContents r with
  | error e =>
    rw [rootFaulted, rootFilesSpec, hg] at hm
    simp at hm
  | ok cs =>
    have hqst : (qTrace (initQueue r cs)).2 = none := by
      rw [folderTrace, hg] at hst
      exact hst
    have hperm := (qFilesBFS_perm (initQueue r cs) hqst).filterMap errMsgOf
    rw [rootFaulted, rootFilesSpec, hg] at hm
    have : m ∈ opsLogs (qTrace (initQueue r cs)).1 := by
      rw [qTrace_logs]
      exact hperm.mem_iff.2 hm
    rw [folderTrace, hg]
    simpa [opsLogs, List.filterMap_cons] using this

/-- Decomposition of the trace of the whole `BASE_DIRS` loop. -/
theorem foldersTrace_base (repo : Repo) :
    (∃ opsT e, folderTrace repo "topics" = (opsT, some e) ∧
       foldersTrace repo BASE_DIRS = (opsT, some e)) ∨
    (∃ opsT opsY e, folderTrace repo "topics" = (opsT, none) ∧
       folderTrace repo "year" = (opsY, some e) ∧
       foldersTrace repo BASE_DIRS = (opsT ++ opsY, some e)) ∨
    (∃ opsT opsY, folderTrace repo "topics" = (opsT, none) ∧
       folderTrace repo "year" = (opsY, none) ∧
       foldersTrace repo BASE_DIRS = (opsT ++ (opsY ++ []), none)) := by
  cases hT : folderTrace repo "topics" with
  | mk opsT stT =>
    cases stT with
    | some e =>
      exact Or.inl ⟨opsT, e, rfl, by simp [foldersTrace, BASE_DIRS, hT]⟩
    | none =>
      cases hY : folderTrace repo "year" with
      | mk opsY stY =>
        cases stY with
        | some e =>
          refine Or.inr (Or.inl ⟨opsT, opsY, e, rfl, rfl, ?_⟩)
          simp [foldersTrace, BASE_DIRS, hT, hY]
        | none =>
          refine Or.inr (Or.inr ⟨opsT, opsY, rfl, rfl, ?_⟩)
          simp [foldersTrace, BASE_DIRS, hT, hY]

/-! ### Claim theorems: LaTeX compiler adapter -/

/-- C2: `compile_latex` returns a present PDF path and an absent log exactly
when the external process exits with status zero and the PDF exists at the
derived path `<absTempDir>/<jobname>.pdf` (job name = source base name with
the extension stripped); if either condition fails it returns an absent path
and the captured process output as the log; on an invocation-level fault it
returns an absent path and the fault description as the log. -/
theorem compile_success_characterization (w : World) (file_path : String) :
    (∀ proc : ProcResult, w.run (compileArgv w file_path) = .ok proc →
      (compile_latex w file_path = (some (derivedPdf w file_path), none) ↔
        (proc.returncode = 0 ∧ w.pathExists (derivedPdf w file_path) = true)) ∧
      (¬ (proc.returncode = 0 ∧ w.pathExists (derivedPdf w file_path) = true) →
        compile_latex w file_path = (none, some proc.stdout))) ∧
    (∀ e : String, w.run (compileArgv w file_path) = .error e →
      compile_latex w file_path = (none, some e)) := by
  constructor
  · intro proc hrun
    have hunf : compile_latex w file_path =
        (if proc.returncode = 0 ∧ w.pathExists (derivedPdf w file_path) = true
         then (some (derivedPdf w file_path), none)
         else (none, some proc.stdout)) := by
      rw [compile_latex, hrun]
      rfl
    constructor
    · by_cases hc : proc.returncode = 0 ∧ w.pathExists (derivedPdf w file_path) = true
      · rw [hunf, if_pos hc]
        simp [hc]
      · rw [hunf, if_neg hc]
        simp [hc]
    · intro hc
      rw [hunf, if_neg hc]
  · intro e hrun
    rw [compile_latex, hrun]

/-- C2 witness. -/
theorem compile_success_characterization_witness :
    (let w : World :=
      { run := fun _ => .ok { returncode := 0, stdout := "out", stderr := "" },
        pathExists := fun _ => true, absTempDir := "/tmp/temp_build" }
     compile_latex w "topics/Kinematics/notes.tex" =
        (some (derivedPdf w "topics/Kinematics/notes.tex"), none)) ∧
    (let w2 : World :=
      { run := fun _ => .error "FileNotFoundError: pdflatex",
        pathExists := fun _ => true, absTempDir := "/tmp/temp_build" }
     compile_latex w2 "notes.tex" = (none, some "FileNotFoundError: pdflatex")) := by
  constructor
  · exact ((compile_success_characterization _ _).1 _ rfl).1.2 (by constructor <;> rfl)
  · exact (compile_success_characterization _ _).2 _ rfl

/-- C6 counterexample: with separately captured streams (stdout "OUT",
stderr "ERR") and a failing exit status, the log is exactly the standard
output text "OUT"; it is not the combined output/error text, which would
contain "ERR". -/
theorem compile_log_not_combined_cex :
    compile_latex
      { run := fun _ => .ok { returncode := 1, stdout := "OUT", stderr := "ERR" },
        pathExists := fun _ => false, absTempDir := "/tmp/temp_build" }
      "a/doc.tex" = (none, some "OUT") ∧
    (some "OUT" : Option String) ≠ some ("OUT" ++ "ERR") := by
  constructor
  · rfl
  · decide

/-- C6 (amended): `compile_latex` captures standard output and standard
error separately (`stdout=PIPE, stderr=PIPE`), and on failure (non-zero
exit, or missing PDF despite zero exit) returns only the captured standard
output text as the log; the captured standard error is discarded. -/
theorem compile_failure_log_is_stdout (w : World) (file_path : String)
    (proc : ProcResult) (hrun : w.run (compileArgv w file_path) = .ok proc)
    (hfail : ¬ (proc.returncode = 0 ∧ w.pathExists (derivedPdf w file_path) = true)) :
    compile_latex w file_path = (none, some proc.stdout) := by
  rw [compile_latex, hrun]
  exact if_neg hfail

/-- C6 witness. -/
theorem compile_failure_log_is_stdout_witness :
    compile_latex
      { run := fun _ => .ok { returncode := 2, stdout := "log text", stderr := "err text" },
        pathExists := fun _ => true, absTempDir := "/tmp/temp_build" }
      "doc.tex" = (none, some "log text") := by
  exact compile_failure_log_is_stdout
    { run := fun _ => .ok { returncode := 2, stdout := "log text", stderr := "err text" },
      pathExists := fun _ => true, absTempDir := "/tmp/temp_build" }
    "doc.tex" { returncode := 2, stdout := "log text", stderr := "err text" } rfl
    (by intro h; exact absurd h.1 (by decide))

/-- C7 counterexample: a failing compile whose process emitted no standard
output returns the empty string as the log, so the log of a failed attempt
is not always non-empty. -/
theorem compile_empty_log_cex :
    compile_latex
      { run := fun _ => .ok { returncode := 1, stdout := "", stderr := "x" },
        pathExists := fun _ => false, absTempDir := "/tmp/temp_build" }
      "d.tex" = (none, some "") ∧ ("" : String).length = 0 := by
  constructor
  · rfl
  · rfl

/-- C7 (amended): on every `compile_latex` attempt exactly one of the PDF
path and the log is populated — never both, never neither — and on an
adapter-level exception the log carries the exception description and the
PDF path is absent; the populated failure log is the captured standard
output, which the code does not guarantee to be non-empty. -/
theorem compile_exactly_one_populated (w : World) (file_path : String) :
    (((compile_latex w file_path).1.isSome = true ∧ (compile_latex w file_path).2 = none) ∨
      ((compile_latex w file_path).1 = none ∧ (compile_latex w file_path).2.isSome = true)) ∧
    (∀ e : String, w.run (compileArgv w file_path) = .error e →
      compile_latex w file_path = (none, some e)) := by
  constructor
  · rw [compile_latex]
    cases hrun : w.run (compileArgv w file_path) with
    | error e => exact Or.inr ⟨rfl, rfl⟩
    | ok proc =>
      by_cases hc : proc.returncode = 0 ∧
          w.pathExists (pathJoin w.absTempDir
            ((splitextBase (basename file_path).data).1.asString ++ ".pdf")) = true
      · left
        constructor <;> simp [hc]
      · right
        constructor <;> simp [hc]
  · intro e hrun
    rw [compile_latex, hrun]

/-- C7 witness. -/
theorem compile_exactly_one_populated_witness :
    ((((compile_latex
          { run := fun _ => .error "boom", pathExists := fun _ => false,
            absTempDir := "/t" } "d.tex").1.isSome = true ∧
        (compile_latex
          { run := fun _ => .error "boom", pathExists := fun _ => false,
            absTempDir := "/t" } "d.tex").2 = none) ∨
      ((compile_latex
          { run := fun _ => .error "boom", pathExists := fun _ => false,
            absTempDir := "/t" } "d.tex").1 = none ∧
        (compile_latex
          { run := fun _ => .error "boom", pathExists := fun _ => false,
            absTempDir := "/t" } "d.tex").2.isSome = true))) ∧
    compile_latex
      { run := fun _ => .error "boom", pathExists := fun _ => false,
        absTempDir := "/t" } "d.tex" = (none, some "boom") := by
  refine ⟨(compile_exactly_one_populated _ _).1, ?_⟩
  exact (compile_exactly_one_populated _ _).2 "boom" rfl

/-! ### Claim theorems: secret resolver -/

/-- C9: `get_secret` returns the environment value when the key is present
in the environment; otherwise the secret-store value for the same key, any
access fault of that store being swallowed as absent; otherwise absent. It
is a pure function of the environment and secret-store snapshot. -/
theorem get_secret_resolution :
    (∀ (env : String → Option String) (secrets : Except String (String → Option String))
        (key v : String), env key = some v → get_secret env secrets key = some v) ∧
    (∀ (env : String → Option String) (s : String → Option String) (key : String),
        env key = none → get_secret env (Except.ok s) key = s key) ∧
    (∀ (env : String → Option String) (e key : String),
        env key = none → get_secret env (Except.error e) key = none) := by
  refine ⟨?_, ?_, ?_⟩
  · intro env secrets key v h
    unfold get_secret
    rw [h]
  · intro env s key h
    have hred : get_secret env (Except.ok s) key =
        (match s key with
         | some v => some v
         | none => none) := by
      unfold get_secret
      rw [h]
    rw [hred]
    cases s key <;> rfl
  · intro env e key h
    unfold get_secret
    rw [h]

/-- C9 witness. -/
theorem get_secret_resolution_witness :
    get_secret (fun k => if k = "github_token" then some "tok-env" else none)
      (Except.ok fun k => if k = "admin_password" then some "pw" else none)
      "github_token" = some "tok-env" ∧
    get_secret (fun k => if k = "github_token" then some "tok-env" else none)
      (Except.ok fun k => if k = "admin_password" then some "pw" else none)
      "admin_password" =
      (fun k => if k = "admin_password" then some "pw" else none) "admin_password" ∧
    get_secret (fun k => if k = "github_token" then some "tok-env" else none)
      (Except.error "no secrets file") "viewer_password" = none := by
  refine ⟨?_, ?_, ?_⟩
  · exact get_secret_resolution.1 _ _ _ "tok-env" (by decide)
  · exact get_secret_resolution.2.1 _ _ _ (by decide)
  · exact get_secret_resolution.2.2 _ _ _ (by decide)

/-! ### Claim theorems: local tree inspector -/

/-- C10: the two inspector operations treat a missing directory
asymmetrically: `get_subfolders` returns the empty list when the root does
not exist, while `get_files` — whose listing call has no existence guard —
raises (`FileNotFoundError`) when the joined `root/subfolder` directory does
not exist. -/
theorem tree_inspector_missing_dir :
    (∀ (fs : FS) (root_dir : String), os_path_exists fs root_dir = false →
        get_subfolders fs root_dir = Except.ok []) ∧
    (∀ (fs : FS) (root_dir subfolder : String),
        os_path_exists fs (pathJoin root_dir subfolder) = false →
        get_files fs root_dir subfolder =
          Except.error ("FileNotFoundError: " ++ pathJoin root_dir subfolder)) := by
  constructor
  · intro fs root_dir h
    rw [get_subfolders, h]
    rfl
  · intro fs root_dir subfolder h
    have hparts : lookupFile fs (pathJoin root_dir subfolder) = none ∧
        ¬ dirMem fs (pathJoin root_dir subfolder) := by
      simpa [os_path_exists] using h
    rw [get_files, os_listdir, if_neg hparts.2, if_neg (by simp [hparts.1])]

/-- C10 witness. -/
theorem tree_inspector_missing_dir_witness :
    get_subfolders { files := [], dirs := [] } "topics" = Except.ok [] ∧
    get_files { files := [], dirs := [] } "topics" "Kinematics" =
      Except.error ("FileNotFoundError: " ++ pathJoin "topics" "Kinematics") := by
  constructor
  · exact tree_inspector_missing_dir.1 _ _ (by decide)
  · exact tree_inspector_missing_dir.2 _ _ _ (by decide)

/-! ### Claim theorems: content decoding policy -/

/-- C4: the decoding policy is applied in order — (a) a declared base64
encoding uses the decoded binary payload; (b) a "none" or absent encoding
encodes the raw content field (empty string when absent) to bytes, so a
"none"-encoded entry with absent content yields a zero-length file rather
than an exception; (c) any other declared encoding falls back to the
decoded binary payload — and a decode fault for a single entry is caught,
logged, and the entry skipped (not written, not counted) without aborting
the pass. -/
theorem decode_policy_and_skip :
    (∀ d : FileData, d.encoding = some "base64" → decodeEntry d = d.decodedContent) ∧
    (∀ d : FileData, d.encoding = some "none" ∨ d.encoding = none →
        decodeEntry d = .ok (encodeUtf8 (d.content.getD ""))) ∧
    (∀ d : FileData, d.encoding = some "none" → d.content = none →
        decodeEntry d = .ok []) ∧
    (∀ d : FileData, d.encoding ≠ some "base64" → d.encoding ≠ some "none" →
        d.encoding ≠ none → decodeEntry d = d.decodedContent) ∧
    (∀ (acc : SyncAcc) (p : String) (d : FileData) (rest : List (String × RTree))
        (e : String), decodeEntry d = .error e →
        processQueue acc ((p, RTree.file d) :: rest) =
          processQueue
            { acc with
              fs := fsMakedirs acc.fs (dirname p)
              log := acc.log ++ ["⚠️ Error downloading " ++ p ++ ": " ++ e] } rest) ∧
    (∀ (acc : SyncAcc) (p : String) (d : FileData) (rest : List (String × RTree))
        (raw : Bytes), decodeEntry d = .ok raw →
        processQueue acc ((p, RTree.file d) :: rest) =
          processQueue
            { acc with
              fs := fsWrite (fsMakedirs acc.fs (dirname p)) p raw
              count := acc.count + 1 } rest) := by
  refine ⟨?_, ?_, ?_, ?_, ?_, ?_⟩
  · intro d h
    rw [decodeEntry, if_pos h]
  · intro d h
    have hne : ¬ d.encoding = some "base64" := by
      rcases h with h | h <;> simp [h]
    rw [decodeEntry, if_neg hne, if_pos h]
  · intro d h1 h2
    have : decodeEntry d = .ok (encodeUtf8 ((none : Option String).getD "")) := by
      have hne : ¬ d.encoding = some "base64" := by simp [h1]
      rw [decodeEntry, if_neg hne, if_pos (Or.inl h1), h2]
    rw [this]
    rfl
  · intro d h1 h2 h3
    rw [decodeEntry, if_neg h1, if_neg (by rintro (h | h) <;> [exact h2 h; exact h3 h])]
  · intro acc p d rest e h
    rw [processQueue, h]
  · intro acc p d rest raw h
    rw [processQueue, h]

/-- C4 witness. -/
theorem decode_policy_and_skip_witness :
    decodeEntry ⟨some "base64", some "QQ==", .ok [65]⟩ = .ok [65] ∧
    decodeEntry ⟨some "none", some "A", .error "no data"⟩ = .ok (encodeUtf8 "A") ∧
    decodeEntry ⟨some "none", none, .error "no data"⟩ = .ok [] ∧
    decodeEntry ⟨some "utf-8", some "A", .ok [65]⟩ = .ok [65] ∧
    processQueue ⟨⟨[], []⟩, [], 0⟩
        [("topics/K/bad.bin",
          RTree.file ⟨some "base64", none, .error "Invalid base64"⟩)] =
      processQueue
        ⟨fsMakedirs ⟨[], []⟩ (dirname "topics/K/bad.bin"),
          [] ++ ["⚠️ Error downloading topics/K/bad.bin: Invalid base64"], 0⟩ [] := by
  refine ⟨?_, ?_, ?_, ?_, ?_⟩
  · exact decode_policy_and_skip.1 _ rfl
  · exact decode_policy_and_skip.2.1 _ (Or.inl rfl)
  · exact decode_policy_and_skip.2.2.1 _ rfl rfl
  · exact decode_policy_and_skip.2.2.2.1 _ (by decide) (by decide) (by decide)
  · exact decode_policy_and_skip.2.2.2.2.1 _ _ _ _ "Invalid base64" rfl

/-! ### Claim theorems: the sync pass -/

/-- C1: after a successful `pull_from_github` pass, for every mapped root
the set of local file paths under that root is exactly the set of remote
file paths reachable under that root minus the entries whose decode step
faulted (which are logged, not written), and the success message reports
the total number of files written across both mapped folders. -/
theorem pullAll_mirrors_remote (repo : Repo) (fs : FS) (msg : String)
    (fs2 : FS) (log2 : List String)
    (h : pull_from_github repo fs = ((true, msg), fs2, log2)) :
    (∀ lr ∈ BASE_DIRS, ∀ p : String,
       ((lookupFile fs2 p).isSome = true ∧ strictUnderB lr.2 p = true) ↔
         p ∈ rootReachableOk repo lr.2) ∧
    msg = "Sync complete! Processed " ++
        toString ((rootReachableOk repo "topics").length +
          (rootReachableOk repo "year").length) ++ " files." ∧
    (∀ lr ∈ BASE_DIRS, ∀ m ∈ rootFaulted repo lr.2, m ∈ log2) := by
  rw [pull_eq_trace] at h
  cases hc : repo.connectErr with
  | some e =>
    rw [hc] at h
    simp at h
  | none =>
    rw [hc] at h
    rcases foldersTrace_base repo with
      ⟨opsT, e, hT, hFT⟩ | ⟨opsT, opsY, e, hT, hY, hFT⟩ | ⟨opsT, opsY, hT, hY, hFT⟩
    · rw [hFT] at h
      simp at h
    · rw [hFT] at h
      simp at h
    · have hFT2 : foldersTrace repo BASE_DIRS = (opsT ++ opsY, none) := by
        rw [hFT]
        simp
      rw [hFT2] at h
      simp only [Prod.mk.injEq, true_and] at h
      obtain ⟨hmsg, hfs, hlog⟩ := h
      have hTst : (folderTrace repo "topics").2 = none := by rw [hT]
      have hYst : (folderTrace repo "year").2 = none := by rw [hY]
      have hconfY : ∀ op ∈ opsY, opConfined "year" op := by
        have h2 := folderTrace_confined repo "year"
        rw [hY] at h2
        exact h2
      have hfileT : ∀ p, strictUnderB "topics" p = true →
          ∃ v, opsFile (opsT ++ opsY) p = some v ∧
            (v.isSome = true ↔ p ∈ rootReachableOk repo "topics") := by
        intro p hp
        obtain ⟨v, hv, hiff⟩ := folderTrace_file_at repo "topics" hTst p hp
        rw [hT] at hv
        refine ⟨v, ?_, hiff⟩
        rw [opsFile_append,
          opsFile_confined_none "year" p (strict_topics_not_year p hp) opsY hconfY]
        exact hv
      have hfileY : ∀ p, strictUnderB "year" p = true →
          ∃ v, opsFile (opsT ++ opsY) p = some v ∧
            (v.isSome = true ↔ p ∈ rootReachableOk repo "year") := by
        intro p hp
        obtain ⟨v, hv, hiff⟩ := folderTrace_file_at repo "year" hYst p hp
        rw [hY] at hv
        refine ⟨v, ?_, hiff⟩
        rw [opsFile_append]
        have hv2 : opsFile opsY p = some v := hv
        rw [hv2]
      have hlook : ∀ (p : String) (v : Option Bytes),
          opsFile (opsT ++ opsY) p = some v → lookupFile fs2 p = v := by
        intro p v hv
        rw [← hfs, lookupFile_applyOps, hv]
      have hmemBD : ∀ lr, lr ∈ BASE_DIRS →
          lr = (("Topics" : String), ("topics" : String)) ∨ lr = ("Year", "year") := by
        intro lr hlr
        simpa [BASE_DIRS] using hlr
      refine ⟨?_, ?_, ?_⟩
      · intro lr hlr p
        rcases hmemBD lr hlr with rfl | rfl
        · constructor
          · rintro ⟨hsome, hsp⟩
            obtain ⟨v, hv, hiff⟩ := hfileT p hsp
            rw [hlook p v hv] at hsome
            exact hiff.1 hsome
          · intro hmem
            have hsp : strictUnderB "topics" p = true :=
              rootReachableOk_under repo "topics" p hmem
            obtain ⟨v, hv, hiff⟩ := hfileT p hsp
            exact ⟨by rw [hlook p v hv]; exact hiff.2 hmem, hsp⟩
        · constructor
          · rintro ⟨hsome, hsp⟩
            obtain ⟨v, hv, hiff⟩ := hfileY p hsp
            rw [hlook p v hv] at hsome
            exact hiff.1 hsome
          · intro hmem
            have hsp : strictUnderB "year" p = true :=
              rootReachableOk_under repo "year" p hmem
            obtain ⟨v, hv, hiff⟩ := hfileY p hsp
            exact ⟨by rw [hlook p v hv]; exact hiff.2 hmem, hsp⟩
      · have hcT : countWrites opsT = (rootReachableOk repo "topics").length := by
          have h2 := folderTrace_count repo "topics" hTst
          rw [hT] at h2
          exact h2
        have hcY : countWrites opsY = (rootReachableOk repo "year").length := by
          have h2 := folderTrace_count repo "year" hYst
          rw [hY] at h2
          exact h2
        rw [← hmsg, count_applyOps, countWrites_append, hcT, hcY]
        simp
      · intro lr hlr m hm
        have hlog2 : log2 = opsLogs opsT ++ opsLogs opsY := by
          rw [← hlog, log_applyOps, opsLogs_append]
          simp
        rcases hmemBD lr hlr with rfl | rfl
        · have h2 := folderTrace_faulted_logged repo "topics" hTst m hm
          rw [hT] at h2
          rw [hlog2]
          exact List.mem_append.2 (Or.inl h2)
        · have h2 := folderTrace_faulted_logged repo "year" hYst m hm
          rw [hY] at h2
          rw [hlog2]
          exact List.mem_append.2 (Or.inr h2)

/-- C3: `pull_from_github` is idempotent on an unchanged remote: running it
twice in succession yields the same outcome and byte-identical local trees
under the mapped roots (files and directories). -/
theorem pullAll_idempotent (repo : Repo) (fs : FS) (r1 r2 : Bool) (m1 m2 : String)
    (fs1 fs2 : FS) (log1 log2 : List String)
    (h1 : pull_from_github repo fs = ((r1, m1), fs1, log1))
    (h2 : pull_from_github repo fs1 = ((r2, m2), fs2, log2)) :
    (∀ p : String, strictUnderB "topics" p = true ∨ strictUnderB "year" p = true →
        lookupFile fs2 p = lookupFile fs1 p) ∧
    (∀ d : String, underEqB "topics" d = true ∨ underEqB "year" d = true →
        (dirMem fs2 d ↔ dirMem fs1 d)) ∧
    r2 = r1 ∧ m2 = m1 := by
  rw [pull_eq_trace] at h1 h2
  cases hc : repo.connectErr with
  | some e =>
    rw [hc] at h1 h2
    simp only [Prod.mk.injEq] at h1 h2
    obtain ⟨⟨hr1, hm1⟩, hfs1, hlog1⟩ := h1
    obtain ⟨⟨hr2, hm2⟩, hfs2, hlog2⟩ := h2
    refine ⟨?_, ?_, ?_, ?_⟩
    · intro p _
      rw [← hfs2]
    · intro d _
      rw [← hfs2]
    · rw [← hr1, ← hr2]
    · rw [← hm1, ← hm2]
  | none =>
    rw [hc] at h1 h2
    cases hft : foldersTrace repo BASE_DIRS with
    | mk ops st =>
      rw [hft] at h1 h2
      have hstep : ∀ (g : FS) (p : String), lookupFile (applyOps ⟨g, [], 0⟩ ops).fs p =
          match opsFile ops p with
          | some v => v
          | none => lookupFile g p := fun g p => lookupFile_applyOps ops ⟨g, [], 0⟩ p
      have hstepd : ∀ (g : FS) (d : String), dirMem (applyOps ⟨g, [], 0⟩ ops).fs d ↔
          (match opsDir ops d with
           | some b => b = true
           | none => dirMem g d) := fun g d => dirMem_applyOps ops ⟨g, [], 0⟩ d
      cases st with
      | none =>
        simp only [Prod.mk.injEq] at h1 h2
        obtain ⟨⟨hr1, hm1⟩, hfs1, hlog1⟩ := h1
        obtain ⟨⟨hr2, hm2⟩, hfs2, hlog2⟩ := h2
        refine ⟨?_, ?_, ?_, ?_⟩
        · intro p _
          have e2 : lookupFile fs2 p =
              match opsFile ops p with
              | some v => v
              | none => lookupFile fs1 p := by
            rw [← hfs2]
            exact hstep fs1 p
          have e1 : lookupFile fs1 p =
              match opsFile ops p with
              | some v => v
              | none => lookupFile fs p := by
            rw [← hfs1]
            exact hstep fs p
          rw [e2]
          cases ho : opsFile ops p with
          | some v => rw [e1, ho]
          | none => rfl
        · intro d _
          have e2 : (dirMem fs2 d ↔
              (match opsDir ops d with
               | some b => b = true
               | none => dirMem fs1 d)) := by
            rw [← hfs2]
            exact hstepd fs1 d
          have e1 : (dirMem fs1 d ↔
              (match opsDir ops d with
               | some b => b = true
               | none => dirMem fs d)) := by
            rw [← hfs1]
            exact hstepd fs d
          rw [e2]
          cases ho : opsDir ops d with
          | some b => rw [e1, ho]
          | none => rfl
        · rw [← hr1, ← hr2]
        · have hcount : (applyOps ⟨fs1, [], 0⟩ ops).count =
              (applyOps ⟨fs, [], 0⟩ ops).count := by
            rw [count_applyOps, count_applyOps]
          rw [← hm1, ← hm2, hcount]
      | some e =>
        simp only [Prod.mk.injEq] at h1 h2
        obtain ⟨⟨hr1, hm1⟩, hfs1, hlog1⟩ := h1
        obtain ⟨⟨hr2, hm2⟩, hfs2, hlog2⟩ := h2
        refine ⟨?_, ?_, ?_, ?_⟩
        · intro p _
          have e2 : lookupFile fs2 p =
              match opsFile ops p with
              | some v => v
              | none => lookupFile fs1 p := by
            rw [← hfs2]
            exact hstep fs1 p
          have e1 : lookupFile fs1 p =
              match opsFile ops p with
              | some v => v
              | none => lookupFile fs p := by
            rw [← hfs1]
            exact hstep fs p
          rw [e2]
          cases ho : opsFile ops p with
          | some v => rw [e1, ho]
          | none => rfl
        · intro d _
          have e2 : (dirMem fs2 d ↔
              (match opsDir ops d with
               | some b => b = true
               | none => dirMem fs1 d)) := by
            rw [← hfs2]
            exact hstepd fs1 d
          have e1 : (dirMem fs1 d ↔
              (match opsDir ops d with
               | some b => b = true
               | none => dirMem fs d)) := by
            rw [← hfs1]
            exact hstepd fs d
          rw [e2]
          cases ho : opsDir ops d with
          | some b => rw [e1, ho]
          | none => rfl
        · rw [← hr1, ← hr2]
        · rw [← hm1, ← hm2]

/-- C3 witness. -/
theorem pullAll_idempotent_witness :
    pull_from_github (Repo.mk none (fun _ => Except.error "missing")) (FS.mk [("junk", [1])] []) =
      ((true, "Sync complete! Processed 0 files."), FS.mk [("junk", [1])] ["topics", "year"],
        ["Warning: topics not found. missing", "Warning: year not found. missing"]) ∧
    pull_from_github (Repo.mk none (fun _ => Except.error "missing"))
        (FS.mk [("junk", [1])] ["topics", "year"]) =
      ((true, "Sync complete! Processed 0 files."), FS.mk [("junk", [1])] ["topics", "year"],
        ["Warning: topics not found. missing", "Warning: year not found. missing"]) ∧
    ((∀ p : String, strictUnderB "topics" p = true ∨ strictUnderB "year" p = true →
        lookupFile (FS.mk [("junk", [1])] ["topics", "year"]) p =
          lookupFile (FS.mk [("junk", [1])] ["topics", "year"]) p) ∧
      (∀ d : String, underEqB "topics" d = true ∨ underEqB "year" d = true →
          (dirMem (FS.mk [("junk", [1])] ["topics", "year"]) d ↔
            dirMem (FS.mk [("junk", [1])] ["topics", "year"]) d)) ∧
      (true : Bool) = true ∧
      "Sync complete! Processed 0 files." = "Sync complete! Processed 0 files.") :=
  ⟨rfl, rfl,
    pullAll_idempotent (Repo.mk none (fun _ => Except.error "missing"))
      (FS.mk [("junk", [1])] []) true true _ _ _ _ _ _ rfl rfl⟩

/-! ### Claim theorems: remote fault behavior of a pull -/

/-- Remote repository of the C5 counterexample: the listing of the mapped
root "topics" succeeds and contains the directory "K", whose own listing
call raises a connectivity fault "boom". -/
def c5Repo : Repo :=
  Repo.mk none
    (fun r => if r = "topics" then Except.ok [("K", RTree.dirErr "boom")]
              else Except.error "x")

/-- Local state of the C5 counterexample before the failing call. -/
def c5Fs : FS :=
  FS.mk [("topics/old.tex", [1])] ["topics"]

theorem c5_folderTrace :
    folderTrace c5Repo "topics" =
      ([SyncOp.wipe "topics", SyncOp.mkd "topics"], some "boom") := by
  rw [folderTrace]
  have hg : c5Repo.getContents "topics" =
      Except.ok [(("K" : String), RTree.dirErr "boom")] := rfl
  rw [hg]
  have hq : qTrace (List.map (fun c => ("topics" ++ "/" ++ c.1, c.2))
      [(("K" : String), RTree.dirErr "boom")]) = ([], some "boom") := by
    have hm : List.map (fun c => ("topics" ++ "/" ++ c.1, c.2))
        [(("K" : String), RTree.dirErr "boom")] =
        [("topics" ++ "/" ++ "K", RTree.dirErr "boom")] := rfl
    rw [hm, qTrace]
  simp only [hq]

theorem c5_foldersTrace :
    foldersTrace c5Repo BASE_DIRS =
      ([SyncOp.wipe "topics", SyncOp.mkd "topics"], some "boom") := by
  rw [BASE_DIRS, foldersTrace, c5_folderTrace]

/-- C5 counterexample: a remote connectivity fault raised while listing a
subdirectory during the pull is surfaced as `(false, message)`, but the
prior local state is NOT untouched: the file `topics/old.tex`, present
before the failing call, is gone afterwards (the mapped root was wiped
before the fault). -/
theorem pull_fault_wipes_state_cex :
    pull_from_github c5Repo c5Fs = ((false, "boom"), FS.mk [] ["topics"], []) ∧
    lookupFile c5Fs "topics/old.tex" = some [1] ∧
    lookupFile (FS.mk [] ["topics"]) "topics/old.tex" = none := by
  refine ⟨?_, rfl, rfl⟩
  rw [pull_eq_trace]
  have hc : c5Repo.connectErr = none := rfl
  rw [hc, c5_foldersTrace]
  rfl

/-- C5 (amended): a remote connectivity or authentication fault during a
`pull_from_github` call is surfaced as a `(false, message)` result and
aborts only that call; a fault raised while connecting (before any folder
is processed) leaves the local state untouched, but a fault raised during
the traversal leaves the local state as the wipes and writes already
performed have made it — prior local state under the processed roots is
not preserved. (A fault on a top-level root listing is swallowed as a
warning instead, see C8.) -/
theorem pull_fault_surfaced (repo : Repo) (fs : FS) :
    (∀ e, repo.connectErr = some e →
        pull_from_github repo fs = ((false, e), fs, [])) ∧
    (∀ (ops : List SyncOp) (e : String), repo.connectErr = none →
        foldersTrace repo BASE_DIRS = (ops, some e) →
        pull_from_github repo fs =
          ((false, e), (applyOps ⟨fs, [], 0⟩ ops).fs, (applyOps ⟨fs, [], 0⟩ ops).log)) := by
  constructor
  · intro e he
    rw [pull_eq_trace, he]
  · intro ops e hc hft
    rw [pull_eq_trace, hc, hft]

/-- C5 witness. -/
theorem pull_fault_surfaced_witness :
    pull_from_github (Repo.mk (some "401 bad credentials") (fun _ => Except.error "x"))
        (FS.mk [] []) = ((false, "401 bad credentials"), FS.mk [] [], []) ∧
    pull_from_github c5Repo c5Fs =
      ((false, "boom"),
        (applyOps ⟨c5Fs, [], 0⟩ [SyncOp.wipe "topics", SyncOp.mkd "topics"]).fs,
        (applyOps ⟨c5Fs, [], 0⟩ [SyncOp.wipe "topics", SyncOp.mkd "topics"]).log) := by
  constructor
  · exact (pull_fault_surfaced _ _).1 "401 bad credentials" rfl
  · exact (pull_fault_surfaced _ _).2 [SyncOp.wipe "topics", SyncOp.mkd "topics"]
      "boom" rfl c5_foldersTrace

/-- C8: a configured top-level folder missing on the remote is only a
logged warning; the pass continues with the next mapped folder and can
still return success, counting the files of the folders that did exist. -/
theorem pull_missing_folder_soft (repo : Repo) (fs : FS) (e : String)
    (hc : repo.connectErr = none)
    (hT : repo.getContents "topics" = Except.error e)
    (hY : (folderTrace repo "year").2 = none) :
    ∃ fs2 log2,
      pull_from_github repo fs =
        ((true, "Sync complete! Processed " ++
            toString (rootReachableOk repo "year").length ++ " files."), fs2, log2) ∧
      ("Warning: topics not found. " ++ e) ∈ log2 := by
  have hTt : folderTrace repo "topics" =
      ([SyncOp.wipe "topics", SyncOp.mkd "topics",
        SyncOp.logE ("Warning: topics not found. " ++ e)], none) := by
    rw [folderTrace, hT]
    rfl
  rcases foldersTrace_base repo with
    ⟨opsT, e2, hT2, hFT⟩ | ⟨opsT, opsY, e2, hT2, hY2, hFT⟩ | ⟨opsT, opsY, hT2, hY2, hFT⟩
  · rw [hTt] at hT2
    simp at hT2
  · rw [hY2] at hY
    simp at hY
  · have hopsT : opsT = [SyncOp.wipe "topics", SyncOp.mkd "topics",
        SyncOp.logE ("Warning: topics not found. " ++ e)] := by
      have h2 := congrArg Prod.fst hT2
      rw [hTt] at h2
      exact h2.symm
    have hFT2 : foldersTrace repo BASE_DIRS = (opsT ++ opsY, none) := by
      rw [hFT]
      simp
    refine ⟨(applyOps ⟨fs, [], 0⟩ (opsT ++ opsY)).fs,
      (applyOps ⟨fs, [], 0⟩ (opsT ++ opsY)).log, ?_, ?_⟩
    · have hcY : countWrites opsY = (rootReachableOk repo "year").length := by
        have h2 := folderTrace_count repo "year" hY
        rw [hY2] at h2
        exact h2
      have hcT : countWrites opsT = 0 := by
        rw [hopsT]
        rfl
      have hcnt : (applyOps ⟨fs, [], 0⟩ (opsT ++ opsY)).count =
          (rootReachableOk repo "year").length := by
        rw [count_applyOps, countWrites_append, hcT, hcY]
        simp
      rw [pull_eq_trace, hc, hFT2]
      show ((true, "Sync complete! Processed " ++
          toString (applyOps ⟨fs, [], 0⟩ (opsT ++ opsY)).count ++ " files."),
          (applyOps ⟨fs, [], 0⟩ (opsT ++ opsY)).fs,
          (applyOps ⟨fs, [], 0⟩ (opsT ++ opsY)).log) = _
      rw [hcnt]
    · rw [log_applyOps, opsLogs_append]
      have hmemT : ("Warning: topics not found. " ++ e) ∈ opsLogs opsT := by
        rw [hopsT]
        simp [opsLogs, List.filterMap_cons]
      simp only [List.nil_append]
      exact List.mem_append.2 (Or.inl hmemT)

/-- C8 witness. -/
theorem pull_missing_folder_soft_witness :
    ∃ fs2 log2,
      pull_from_github
          (Repo.mk none (fun r => if r = "year" then Except.ok [] else Except.error "404"))
          (FS.mk [] []) =
        ((true, "Sync complete! Processed " ++
            toString (rootReachableOk
              (Repo.mk none (fun r => if r = "year" then Except.ok [] else Except.error "404"))
              "year").length ++ " files."), fs2, log2) ∧
      ("Warning: topics not found. " ++ "404") ∈ log2 := by
  refine pull_missing_folder_soft _ _ "404" rfl rfl ?_
  rw [folderTrace]
  have hg : (Repo.mk none
      (fun r => if r = "year" then Except.ok [] else Except.error "404")).getContents
      "year" = Except.ok [] := rfl
  rw [hg]
  show (qTrace (List.map (fun c => ("year" ++ "/" ++ c.1, c.2))
      ([] : List (String × RTree)))).2 = none
  have hm : List.map (fun c => ("year" ++ "/" ++ c.1, c.2))
      ([] : List (String × RTree)) = [] := rfl
  rw [hm, qTrace]

/-- C1 witness. -/
theorem pullAll_mirrors_remote_witness :
    pull_from_github (Repo.mk none (fun _ => Except.error "404")) (FS.mk [] []) =
      ((true, "Sync complete! Processed 0 files."), FS.mk [] ["topics", "year"],
        ["Warning: topics not found. 404", "Warning: year not found. 404"]) ∧
    "Sync complete! Processed 0 files." =
      "Sync complete! Processed " ++
        toString ((rootReachableOk (Repo.mk none (fun _ => Except.error "404")) "topics").length +
          (rootReachableOk (Repo.mk none (fun _ => Except.error "404")) "year").length) ++
        " files." :=
  ⟨rfl,
    (pullAll_mirrors_remote (Repo.mk none (fun _ => Except.error "404")) (FS.mk [] [])
      "Sync complete! Processed 0 files." (FS.mk [] ["topics", "year"])
      ["Warning: topics not found. 404", "Warning: year not found. 404"] rfl).2.1⟩
